import Mathlib

/-!
Verification of the public-key encryption layer of `src/nacl/public.py`
(PyNaCl). Byte strings are modelled as `List Nat`. The external curve and
AEAD primitives (`nacl.c.crypto_box_beforenm`, `crypto_box_afternm`,
`crypto_box_open_afternm`, `crypto_scalarmult_base`) live outside `src/`;
they are modelled as an abstract record of functions `CryptoPrimitives`
together with the contract the spec states for them. Pluggable encoders
and `EncryptedMessage` (from `nacl.encoding` / `nacl.utils`, also outside
`src/`) are modelled from the spec. Everything else is a direct shallow
embedding of the Python source.
-/

/-- A byte string: a list of byte values. -/
abbrev Bytes := List Nat

/-- Modelled from the spec: a pluggable encoder collaborator
(`nacl.encoding`, not under `src/`): `encode(bytes) -> T`,
`decode(T) -> bytes`, here with `T = Bytes`. -/
structure Encoder where
  encode : Bytes → Bytes
  decode : Bytes → Bytes

/-- Modelled from the spec: the `RawEncoder`, whose encode and decode are
both the identity on raw bytes. -/
def RawEncoder : Encoder := ⟨id, id⟩

/-- Modelled from the spec: the encoder contract, round-trip identity
`decode(encode(b)) == b` for all valid `b`. -/
def Encoder.RoundTrip (E : Encoder) : Prop :=
  ∀ b : Bytes, E.decode (E.encode b) = b

/-- The error taxonomy of the spec. In the Python source the first two are
`ValueError`s raised by the length checks and the third is the failure of
the authenticated-decrypt primitive. -/
inductive NaclError
  | InvalidKeyLength
  | InvalidNonceLength
  | AuthenticationFailure
  deriving DecidableEq, Repr

/-- Modelled from the spec: the external trusted primitive library
(`nacl.c`, not under `src/`) as an abstract record of pure functions.
`crypto_box_afternm` and `crypto_box_open_afternm` receive the box's
shared key, which in the source may be `None`, hence `Option Bytes`. -/
structure CryptoPrimitives where
  crypto_scalarmult_base : Bytes → Bytes
  crypto_box_beforenm : Bytes → Bytes → Bytes
  crypto_box_afternm : Bytes → Bytes → Option Bytes → Except NaclError Bytes
  crypto_box_open_afternm : Bytes → Bytes → Option Bytes → Except NaclError Bytes

/-- Modelled from the spec: the contract of the external primitives
(spec section 6): encryption under a present shared key succeeds, what it
produces decrypts back to the plaintext under the same nonce and key,
authenticated decryption either succeeds or fails with
`AuthenticationFailure`, and the base-point scalar multiplication returns
a 32-byte point. -/
structure CryptoPrimitives.Sound (C : CryptoPrimitives) : Prop where
  afternm_ok : ∀ p n k : Bytes, ∃ c : Bytes,
    C.crypto_box_afternm p n (some k) = .ok c
  open_afternm_enc : ∀ p n k c : Bytes,
    C.crypto_box_afternm p n (some k) = .ok c →
    C.crypto_box_open_afternm c n (some k) = .ok p
  open_afternm_cases : ∀ c n k : Bytes,
    (∃ p : Bytes, C.crypto_box_open_afternm c n (some k) = .ok p) ∨
    C.crypto_box_open_afternm c n (some k) = .error .AuthenticationFailure
  scalarmult_base_len : ∀ s : Bytes, (C.crypto_scalarmult_base s).length = 32

/-- `nacl.c.crypto_box_PUBLICKEYBYTES` (constant fixed by the spec,
section 6: `PUBLIC_KEY_SIZE = 32`). -/
def crypto_box_PUBLICKEYBYTES : Nat := 32

/-- `nacl.c.crypto_box_SECRETKEYBYTES` (constant fixed by the spec,
section 6: `PRIVATE_KEY_SIZE = 32`). -/
def crypto_box_SECRETKEYBYTES : Nat := 32

/-- `nacl.c.crypto_box_NONCEBYTES` (constant fixed by the spec,
section 6: `NONCE_SIZE = 24`). -/
def crypto_box_NONCEBYTES : Nat := 24

/-- `class PublicKey`: holds the decoded raw key bytes `self._public_key`. -/
structure PublicKey where
  _public_key : Bytes
  deriving DecidableEq, Repr

/-- `PublicKey.SIZE = nacl.c.crypto_box_PUBLICKEYBYTES`. -/
def PublicKey.SIZE : Nat := crypto_box_PUBLICKEYBYTES

/-- `PublicKey.__init__`: decode the input with the encoder, fail with a
`ValueError` (spec: `InvalidKeyLength`) unless the decoded length is
exactly `SIZE`. -/
def PublicKey.init (public_key : Bytes) (encoder : Encoder) :
    Except NaclError PublicKey :=
  let pk := encoder.decode public_key
  if pk.length ≠ PublicKey.SIZE then .error .InvalidKeyLength
  else .ok ⟨pk⟩

/-- `PublicKey.__bytes__`: the raw key bytes. -/
def PublicKey.toBytes (k : PublicKey) : Bytes := k._public_key

/-- Modelled from the spec: `encoding.Encodable.encode` (not under
`src/`): apply the encoder to the raw bytes of the value. -/
def PublicKey.encode (k : PublicKey) (encoder : Encoder) : Bytes :=
  encoder.encode k.toBytes

/-- `class PrivateKey`: holds the decoded raw key bytes
`self._private_key` and the derived `self.public_key`. -/
structure PrivateKey where
  _private_key : Bytes
  public_key : PublicKey
  deriving DecidableEq, Repr

/-- `PrivateKey.SIZE = nacl.c.crypto_box_SECRETKEYBYTES`. -/
def PrivateKey.SIZE : Nat := crypto_box_SECRETKEYBYTES

/-- `PrivateKey.__init__`: decode the input, fail with a `ValueError`
(spec: `InvalidKeyLength`) unless the decoded length is exactly `SIZE`,
then derive the public key once via `nacl.c.crypto_scalarmult_base` and
wrap it as a `PublicKey` (whose own length check runs as in the source). -/
def PrivateKey.init (C : CryptoPrimitives) (private_key : Bytes)
    (encoder : Encoder) : Except NaclError PrivateKey :=
  let sk := encoder.decode private_key
  if sk.length ≠ PrivateKey.SIZE then .error .InvalidKeyLength
  else
    let raw_public_key := C.crypto_scalarmult_base sk
    match PublicKey.init raw_public_key RawEncoder with
    | .error e => .error e
    | .ok pk => .ok ⟨sk, pk⟩

/-- `PrivateKey.__bytes__`: the raw key bytes. -/
def PrivateKey.toBytes (k : PrivateKey) : Bytes := k._private_key

/-- Modelled from the spec: `encoding.Encodable.encode` (not under
`src/`): apply the encoder to the raw bytes of the value. -/
def PrivateKey.encode (k : PrivateKey) (encoder : Encoder) : Bytes :=
  encoder.encode k.toBytes

/-- Modelled from the spec: `nacl.utils.EncryptedMessage` (not under
`src/`), the immutable triple of the encoded nonce, the encoded
ciphertext, and the encoded concatenation, built by `_from_parts`. -/
structure EncryptedMessage where
  nonce : Bytes
  ciphertext : Bytes
  combined : Bytes
  deriving DecidableEq, Repr

/-- Modelled from the spec: `EncryptedMessage._from_parts`, packaging the
three already-encoded projections. -/
def EncryptedMessage._from_parts (nonce ciphertext combined : Bytes) :
    EncryptedMessage :=
  ⟨nonce, ciphertext, combined⟩

/-- `class Box`: holds only `self._shared_key`, which is `None` when the
box was built without both keys. -/
structure Box where
  _shared_key : Option Bytes
  deriving DecidableEq, Repr

/-- `Box.NONCE_SIZE = nacl.c.crypto_box_NONCEBYTES`. -/
def Box.NONCE_SIZE : Nat := crypto_box_NONCEBYTES

/-- `Box.__init__`: when both keys are present (`if private_key and
public_key`, where `None` is falsy) compute the shared key once via
`nacl.c.crypto_box_beforenm` on the raw-encoded public then private key;
otherwise leave the shared key `None`. -/
def Box.init (C : CryptoPrimitives) (private_key : Option PrivateKey)
    (public_key : Option PublicKey) : Box :=
  match private_key, public_key with
  | some sk, some pk =>
      ⟨some (C.crypto_box_beforenm (pk.encode RawEncoder)
        (sk.encode RawEncoder))⟩
  | _, _ => ⟨none⟩

/-- `Box.decode`: build an empty box, then assign the decoded value
directly as its shared key, with no validation. -/
def Box.decode (encoded : Bytes) (encoder : Encoder) : Box :=
  ⟨some (encoder.decode encoded)⟩

/-- `Box.encrypt`: fail with a `ValueError` (spec: `InvalidNonceLength`)
unless the nonce length is exactly `NONCE_SIZE`; then call
`nacl.c.crypto_box_afternm` on the plaintext, nonce and shared key, and
package the encoder-applied nonce, ciphertext and concatenation. -/
def Box.encrypt (box : Box) (C : CryptoPrimitives) (plaintext nonce : Bytes)
    (encoder : Encoder) : Except NaclError EncryptedMessage :=
  if nonce.length ≠ Box.NONCE_SIZE then .error .InvalidNonceLength
  else
    match C.crypto_box_afternm plaintext nonce box._shared_key with
    | .error e => .error e
    | .ok ciphertext =>
        let encoded_nonce := encoder.encode nonce
        let encoded_ciphertext := encoder.encode ciphertext
        .ok (EncryptedMessage._from_parts encoded_nonce encoded_ciphertext
          (encoder.encode (nonce ++ ciphertext)))

/-- `Box.decrypt`: decode the input with the encoder; if the nonce is
omitted, split the decoded input into its first `NONCE_SIZE` bytes (the
nonce) and the remainder (the ciphertext); fail with a `ValueError`
(spec: `InvalidNonceLength`) unless the nonce length is exactly
`NONCE_SIZE`; then return what `nacl.c.crypto_box_open_afternm` returns. -/
def Box.decrypt (box : Box) (C : CryptoPrimitives) (ciphertext : Bytes)
    (nonce : Option Bytes) (encoder : Encoder) : Except NaclError Bytes :=
  let ct := encoder.decode ciphertext
  let nc : Bytes × Bytes :=
    match nonce with
    | none => (ct.take Box.NONCE_SIZE, ct.drop Box.NONCE_SIZE)
    | some n => (n, ct)
  if nc.1.length ≠ Box.NONCE_SIZE then .error .InvalidNonceLength
  else C.crypto_box_open_afternm nc.2 nc.1 box._shared_key

/-- Modelled from the spec: keystream seed of a toy symmetric cipher used
only to exhibit a concrete instance of the primitive contract. -/
def toySeed (n k : Bytes) : Nat := (n.sum + k.sum) % 256

/-- Modelled from the spec: toy stream cipher, xor every byte with the
seed; applying it twice is the identity. -/
def toyMask (s : Nat) (b : Bytes) : Bytes := b.map (fun x => x ^^^ s)

/-- Modelled from the spec: toy authentication tag, a keyed checksum of
the ciphertext body. -/
def toyTag (c n k : Bytes) : Nat := (c.sum + n.sum + k.sum) % 256

/-- Modelled from the spec: a concrete instance of the external primitive
library, used to witness theorems stated over an arbitrary sound
`CryptoPrimitives`. -/
def toyPrimitives : CryptoPrimitives where
  crypto_scalarmult_base := fun s => List.replicate 32 ((s.sum + 9) % 256)
  crypto_box_beforenm := fun pk sk => pk ++ sk
  crypto_box_afternm := fun p n key =>
    match key with
    | some k =>
        let c := toyMask (toySeed n k) p
        .ok (toyTag c n k :: c)
    | none => .error .AuthenticationFailure
  crypto_box_open_afternm := fun ct n key =>
    match key, ct with
    | some k, t :: c =>
        if t = toyTag c n k then .ok (toyMask (toySeed n k) c)
        else .error .AuthenticationFailure
    | some _, [] => .error .AuthenticationFailure
    | none, _ => .error .AuthenticationFailure

/-- Applying the toy stream cipher twice is the identity. -/
theorem toyMask_toyMask (s : Nat) (b : Bytes) :
    toyMask s (toyMask s b) = b := by
  unfold toyMask
  rw [List.map_map]
  have h : ((fun x => x ^^^ s) ∘ fun x => x ^^^ s) = id := by
    funext x
    simp [Function.comp, Nat.xor_assoc, Nat.xor_self, Nat.xor_zero]
  rw [h, List.map_id]

/-- The toy primitives satisfy the spec's primitive contract. -/
theorem toyPrimitives_sound : toyPrimitives.Sound := by
  constructor
  · intro p n k
    exact ⟨_, rfl⟩
  · intro p n k c h
    simp only [toyPrimitives] at h ⊢
    cases h
    simp [toyMask_toyMask]
  · intro c n k
    match c with
    | [] => exact Or.inr rfl
    | t :: c' =>
        by_cases h : t = toyTag c' n k
        · exact Or.inl ⟨toyMask (toySeed n k) c', by simp [toyPrimitives, h]⟩
        · exact Or.inr (by simp [toyPrimitives, h])
  · intro s
    simp [toyPrimitives]

/-- Reduction of `Box.encrypt` on a nonce of the right length when the
cipher primitive returns a ciphertext. -/
theorem Box.encrypt_eq_of_afternm (box : Box) (C : CryptoPrimitives)
    (p n c : Bytes) (E : Encoder) (hn : n.length = Box.NONCE_SIZE)
    (hc : C.crypto_box_afternm p n box._shared_key = .ok c) :
    box.encrypt C p n E =
      .ok (EncryptedMessage._from_parts (E.encode n) (E.encode c)
        (E.encode (n ++ c))) := by
  unfold Box.encrypt
  rw [if_neg (by simp [hn]), hc]

/-- Reduction of `Box.decrypt` when the nonce is supplied separately and
has the right length. -/
theorem Box.decrypt_some_eq (box : Box) (C : CryptoPrimitives)
    (ct n : Bytes) (E : Encoder) (hn : n.length = Box.NONCE_SIZE) :
    box.decrypt C ct (some n) E =
      C.crypto_box_open_afternm (E.decode ct) n box._shared_key := by
  unfold Box.decrypt
  simp [hn]

/-- Reduction of `Box.decrypt` in combined form: the decoded input is
split at `NONCE_SIZE`. -/
theorem Box.decrypt_none_eq (box : Box) (C : CryptoPrimitives)
    (ct : Bytes) (E : Encoder)
    (h24 : ((E.decode ct).take Box.NONCE_SIZE).length = Box.NONCE_SIZE) :
    box.decrypt C ct none E =
      C.crypto_box_open_afternm ((E.decode ct).drop Box.NONCE_SIZE)
        ((E.decode ct).take Box.NONCE_SIZE) box._shared_key := by
  unfold Box.decrypt
  simp [h24]

/-- The shared key of a box built from two present keys. -/
theorem Box.init_shared_key (C : CryptoPrimitives) (sk : PrivateKey)
    (pk : PublicKey) :
    (Box.init C (some sk) (some pk))._shared_key =
      some (C.crypto_box_beforenm (pk.encode RawEncoder)
        (sk.encode RawEncoder)) := rfl

/-- C1: for every plaintext `p`, 24-byte nonce `n`, and box whose shared
secret was computed from a key pair, decrypting the ciphertext projection
of `encrypt(p, n)` with the same nonce and the same shared secret (raw
encoder throughout) returns exactly `p`. -/
theorem box_separate_roundtrip (C : CryptoPrimitives) (hC : C.Sound)
    (sk : PrivateKey) (pk : PublicKey) (p n : Bytes)
    (hn : n.length = Box.NONCE_SIZE) :
    ∃ m : EncryptedMessage,
      (Box.init C (some sk) (some pk)).encrypt C p n RawEncoder = .ok m ∧
      (Box.init C (some sk) (some pk)).decrypt C m.ciphertext (some n)
        RawEncoder = .ok p := by
  set key := C.crypto_box_beforenm (pk.encode RawEncoder)
    (sk.encode RawEncoder) with hkey
  obtain ⟨c, hc⟩ := hC.afternm_ok p n key
  refine ⟨EncryptedMessage._from_parts n c (n ++ c), ?_, ?_⟩
  · have := Box.encrypt_eq_of_afternm (Box.init C (some sk) (some pk)) C
      p n c RawEncoder hn (by rw [Box.init_shared_key, ← hkey]; exact hc)
    simpa [RawEncoder] using this
  · rw [Box.decrypt_some_eq _ _ _ _ _ hn, Box.init_shared_key, ← hkey]
    exact hC.open_afternm_enc p n key c hc

/-- C1 witness: the round trip at a concrete key pair, plaintext and
nonce, under the toy primitives. -/
theorem box_separate_roundtrip_witness :
    ∃ m : EncryptedMessage,
      (Box.init toyPrimitives (some ⟨List.replicate 32 3, ⟨List.replicate 32 5⟩⟩)
        (some ⟨List.replicate 32 5⟩)).encrypt toyPrimitives [104, 105]
        (List.replicate 24 7) RawEncoder = .ok m ∧
      (Box.init toyPrimitives (some ⟨List.replicate 32 3, ⟨List.replicate 32 5⟩⟩)
        (some ⟨List.replicate 32 5⟩)).decrypt toyPrimitives m.ciphertext
        (some (List.replicate 24 7)) RawEncoder = .ok [104, 105] :=
  box_separate_roundtrip toyPrimitives toyPrimitives_sound
    ⟨List.replicate 32 3, ⟨List.replicate 32 5⟩⟩ ⟨List.replicate 32 5⟩
    [104, 105] (List.replicate 24 7) (by decide)

/-- C2: for every plaintext `p` and 24-byte nonce `n`, decrypting the
combined projection of `encrypt(p, n)` with the nonce omitted returns
exactly `p`: the decoded input is split so that its first `NONCE_SIZE`
bytes become the nonce and the remainder the ciphertext, and the result
equals decrypting the separate parts. -/
theorem box_combined_roundtrip (C : CryptoPrimitives) (hC : C.Sound)
    (E : Encoder) (hE : E.RoundTrip) (sk : PrivateKey) (pk : PublicKey)
    (p n : Bytes) (hn : n.length = Box.NONCE_SIZE) :
    ∃ m : EncryptedMessage,
      (Box.init C (some sk) (some pk)).encrypt C p n E = .ok m ∧
      (Box.init C (some sk) (some pk)).decrypt C m.combined none E = .ok p ∧
      (Box.init C (some sk) (some pk)).decrypt C m.combined none E =
        (Box.init C (some sk) (some pk)).decrypt C m.ciphertext (some n) E := by
  set key := C.crypto_box_beforenm (pk.encode RawEncoder)
    (sk.encode RawEncoder) with hkey
  obtain ⟨c, hc⟩ := hC.afternm_ok p n key
  refine ⟨EncryptedMessage._from_parts (E.encode n) (E.encode c)
    (E.encode (n ++ c)), ?_, ?_, ?_⟩
  · exact Box.encrypt_eq_of_afternm _ C p n c E hn
      (by rw [Box.init_shared_key, ← hkey]; exact hc)
  · have htake : ((E.decode (E.encode (n ++ c))).take Box.NONCE_SIZE) = n := by
      rw [hE, ← hn, List.take_left]
    have hdrop : ((E.decode (E.encode (n ++ c))).drop Box.NONCE_SIZE) = c := by
      rw [hE, ← hn, List.drop_left]
    rw [Box.decrypt_none_eq _ C _ E
      (by simp only [EncryptedMessage._from_parts]; rw [htake, hn])]
    simp only [EncryptedMessage._from_parts]
    rw [htake, hdrop, Box.init_shared_key, ← hkey]
    exact hC.open_afternm_enc p n key c hc
  · have htake : ((E.decode (E.encode (n ++ c))).take Box.NONCE_SIZE) = n := by
      rw [hE, ← hn, List.take_left]
    have hdrop : ((E.decode (E.encode (n ++ c))).drop Box.NONCE_SIZE) = c := by
      rw [hE, ← hn, List.drop_left]
    rw [Box.decrypt_none_eq _ C _ E
      (by simp only [EncryptedMessage._from_parts]; rw [htake, hn])]
    simp only [EncryptedMessage._from_parts]
    rw [htake, hdrop, Box.decrypt_some_eq _ C _ _ E hn, hE]

/-- C2 witness: the combined-form round trip at a concrete key pair,
plaintext and nonce, under the toy primitives and the raw encoder. -/
theorem box_combined_roundtrip_witness :
    ∃ m : EncryptedMessage,
      (Box.init toyPrimitives (some ⟨List.replicate 32 3, ⟨List.replicate 32 5⟩⟩)
        (some ⟨List.replicate 32 5⟩)).encrypt toyPrimitives [1, 2, 3]
        (List.replicate 24 9) RawEncoder = .ok m ∧
      (Box.init toyPrimitives (some ⟨List.replicate 32 3, ⟨List.replicate 32 5⟩⟩)
        (some ⟨List.replicate 32 5⟩)).decrypt toyPrimitives m.combined none
        RawEncoder = .ok [1, 2, 3] ∧
      (Box.init toyPrimitives (some ⟨List.replicate 32 3, ⟨List.replicate 32 5⟩⟩)
        (some ⟨List.replicate 32 5⟩)).decrypt toyPrimitives m.combined none
        RawEncoder =
      (Box.init toyPrimitives (some ⟨List.replicate 32 3, ⟨List.replicate 32 5⟩⟩)
        (some ⟨List.replicate 32 5⟩)).decrypt toyPrimitives m.ciphertext
        (some (List.replicate 24 9)) RawEncoder :=
  box_combined_roundtrip toyPrimitives toyPrimitives_sound RawEncoder
    (fun _ => rfl) ⟨List.replicate 32 3, ⟨List.replicate 32 5⟩⟩
    ⟨List.replicate 32 5⟩ [1, 2, 3] (List.replicate 24 9) (by decide)

/-- Reduction of `PublicKey.init` on a raw 32-byte input. -/
theorem PublicKey.init_ok (b : Bytes) (h : b.length = 32) :
    PublicKey.init b RawEncoder = .ok ⟨b⟩ := by
  simp [PublicKey.init, RawEncoder, PublicKey.SIZE, crypto_box_PUBLICKEYBYTES, h]

/-- C3: constructing a `PublicKey` or a `PrivateKey` fails with
`InvalidKeyLength` if and only if the decoded byte sequence does not have
length exactly 32; length 32 succeeds. -/
theorem key_init_length_check (C : CryptoPrimitives) (hC : C.Sound)
    (E : Encoder) (b : Bytes) :
    (PublicKey.init b E = .error .InvalidKeyLength ↔
      (E.decode b).length ≠ 32) ∧
    ((∃ pk, PublicKey.init b E = .ok pk) ↔ (E.decode b).length = 32) ∧
    (PrivateKey.init C b E = .error .InvalidKeyLength ↔
      (E.decode b).length ≠ 32) ∧
    ((∃ sk, PrivateKey.init C b E = .ok sk) ↔ (E.decode b).length = 32) := by
  by_cases h : (E.decode b).length = 32
  · have hpk := PublicKey.init_ok (C.crypto_scalarmult_base (E.decode b))
      (hC.scalarmult_base_len (E.decode b))
    refine ⟨?_, ?_, ?_, ?_⟩
    · simp [PublicKey.init, PublicKey.SIZE, crypto_box_PUBLICKEYBYTES, h]
    · simp [PublicKey.init, PublicKey.SIZE, crypto_box_PUBLICKEYBYTES, h]
    · simp [PrivateKey.init, PrivateKey.SIZE, crypto_box_SECRETKEYBYTES, h, hpk]
    · simp [PrivateKey.init, PrivateKey.SIZE, crypto_box_SECRETKEYBYTES, h, hpk]
  · refine ⟨?_, ?_, ?_, ?_⟩
    · simp [PublicKey.init, PublicKey.SIZE, crypto_box_PUBLICKEYBYTES, h]
    · simp [PublicKey.init, PublicKey.SIZE, crypto_box_PUBLICKEYBYTES, h]
    · simp [PrivateKey.init, PrivateKey.SIZE, crypto_box_SECRETKEYBYTES, h]
    · simp [PrivateKey.init, PrivateKey.SIZE, crypto_box_SECRETKEYBYTES, h]

/-- C3 witness: lengths 31 and 33 fail with `InvalidKeyLength` and length
32 succeeds, for both key types, under the raw encoder. -/
theorem key_init_length_check_witness :
    PublicKey.init (List.replicate 31 1) RawEncoder =
      .error .InvalidKeyLength ∧
    PublicKey.init (List.replicate 33 1) RawEncoder =
      .error .InvalidKeyLength ∧
    (∃ pk, PublicKey.init (List.replicate 32 1) RawEncoder = .ok pk) ∧
    PrivateKey.init toyPrimitives (List.replicate 31 1) RawEncoder =
      .error .InvalidKeyLength ∧
    PrivateKey.init toyPrimitives (List.replicate 33 1) RawEncoder =
      .error .InvalidKeyLength ∧
    (∃ sk, PrivateKey.init toyPrimitives (List.replicate 32 1) RawEncoder =
      .ok sk) :=
  ⟨(key_init_length_check toyPrimitives toyPrimitives_sound RawEncoder
      (List.replicate 31 1)).1.mpr (by decide),
   (key_init_length_check toyPrimitives toyPrimitives_sound RawEncoder
      (List.replicate 33 1)).1.mpr (by decide),
   (key_init_length_check toyPrimitives toyPrimitives_sound RawEncoder
      (List.replicate 32 1)).2.1.mpr (by decide),
   (key_init_length_check toyPrimitives toyPrimitives_sound RawEncoder
      (List.replicate 31 1)).2.2.1.mpr (by decide),
   (key_init_length_check toyPrimitives toyPrimitives_sound RawEncoder
      (List.replicate 33 1)).2.2.1.mpr (by decide),
   (key_init_length_check toyPrimitives toyPrimitives_sound RawEncoder
      (List.replicate 32 1)).2.2.2.mpr (by decide)⟩

/-- C4: `encrypt` fails with `InvalidNonceLength` exactly when the nonce
length is not 24, and then for every choice of primitive record, so the
cipher primitive is never invoked; `decrypt` fails with
`InvalidNonceLength` exactly when the supplied — or, in combined form,
extracted — nonce length is not 24, and a combined input whose decoded
length is below 24 always fails that way, again for every primitive
record. -/
theorem box_nonce_length_check (C : CryptoPrimitives) (hC : C.Sound)
    (box : Box) (k : Bytes) (hbox : box._shared_key = some k)
    (E : Encoder) (p n ct : Bytes) :
    (n.length ≠ Box.NONCE_SIZE → ∀ X : CryptoPrimitives,
      box.encrypt X p n E = .error .InvalidNonceLength) ∧
    (n.length = Box.NONCE_SIZE →
      ∃ m, box.encrypt C p n E = .ok m) ∧
    (n.length ≠ Box.NONCE_SIZE → ∀ X : CryptoPrimitives,
      box.decrypt X ct (some n) E = .error .InvalidNonceLength) ∧
    (n.length = Box.NONCE_SIZE →
      box.decrypt C ct (some n) E ≠ .error .InvalidNonceLength) ∧
    ((E.decode ct).length < Box.NONCE_SIZE → ∀ X : CryptoPrimitives,
      box.decrypt X ct none E = .error .InvalidNonceLength) ∧
    (Box.NONCE_SIZE ≤ (E.decode ct).length →
      box.decrypt C ct none E ≠ .error .InvalidNonceLength) := by
  refine ⟨?_, ?_, ?_, ?_, ?_, ?_⟩
  · intro h X
    unfold Box.encrypt
    rw [if_pos h]
  · intro h
    obtain ⟨c, hc⟩ := hC.afternm_ok p n k
    exact ⟨_, Box.encrypt_eq_of_afternm box C p n c E h (by rw [hbox]; exact hc)⟩
  · intro h X
    unfold Box.decrypt
    simp [h]
  · intro h
    rw [Box.decrypt_some_eq box C ct n E h, hbox]
    rcases hC.open_afternm_cases (E.decode ct) n k with ⟨q, hq⟩ | hq <;>
      simp [hq]
  · intro h X
    unfold Box.decrypt
    have : ((E.decode ct).take Box.NONCE_SIZE).length ≠ Box.NONCE_SIZE := by
      rw [List.length_take]
      omega
    simp only []
    rw [if_pos (by simpa using this)]
  · intro h
    have h24 : ((E.decode ct).take Box.NONCE_SIZE).length = Box.NONCE_SIZE := by
      rw [List.length_take]
      omega
    rw [Box.decrypt_none_eq box C ct E h24, hbox]
    rcases hC.open_afternm_cases ((E.decode ct).drop Box.NONCE_SIZE)
      ((E.decode ct).take Box.NONCE_SIZE) k with ⟨q, hq⟩ | hq <;> simp [hq]

/-- C4 witness: concrete failures with a 23-byte nonce and a 10-byte
combined input, and concrete success with a 24-byte nonce, on a box with
a present shared key under the toy primitives. -/
theorem box_nonce_length_check_witness :
    Box.encrypt ⟨some [1]⟩ toyPrimitives [2] (List.replicate 23 0)
      RawEncoder = .error .InvalidNonceLength ∧
    Box.decrypt ⟨some [1]⟩ toyPrimitives [9] (some (List.replicate 23 0))
      RawEncoder = .error .InvalidNonceLength ∧
    Box.decrypt ⟨some [1]⟩ toyPrimitives (List.replicate 10 0) none
      RawEncoder = .error .InvalidNonceLength ∧
    Box.encrypt ⟨some [1]⟩ toyPrimitives [2] (List.replicate 24 0)
      RawEncoder ≠ .error .InvalidNonceLength := by
  have h23 := box_nonce_length_check toyPrimitives toyPrimitives_sound
    ⟨some [1]⟩ [1] rfl RawEncoder [2] (List.replicate 23 0) (List.replicate 10 0)
  have h24 := box_nonce_length_check toyPrimitives toyPrimitives_sound
    ⟨some [1]⟩ [1] rfl RawEncoder [2] (List.replicate 24 0) (List.replicate 10 0)
  refine ⟨h23.1 (by decide) toyPrimitives, ?_, ?_, ?_⟩
  · have := box_nonce_length_check toyPrimitives toyPrimitives_sound
      ⟨some [1]⟩ [1] rfl RawEncoder [2] (List.replicate 23 0) [9]
    exact this.2.2.1 (by decide) toyPrimitives
  · exact h23.2.2.2.2.1 (by decide) toyPrimitives
  · obtain ⟨m, hm⟩ := h24.2.1 (by decide)
    rw [hm]
    simp

/-- C5: for every plaintext `p`, 24-byte nonce `n` and encoder `E`,
`encrypt(p, n, E)` returns an `EncryptedMessage` whose three projections
are exactly `E.encode(n)`, `E.encode(c)` and `E.encode(n ++ c)`, where
`c` is what the authenticated-encrypt primitive returned on `(p, n,
shared_secret)`; before encoding, the combined projection is the
concatenation of the nonce and the ciphertext. -/
theorem box_encrypt_projections (C : CryptoPrimitives) (box : Box)
    (p n c : Bytes) (E : Encoder) (hn : n.length = Box.NONCE_SIZE)
    (hc : C.crypto_box_afternm p n box._shared_key = .ok c) :
    ∃ m : EncryptedMessage, box.encrypt C p n E = .ok m ∧
      m.nonce = E.encode n ∧ m.ciphertext = E.encode c ∧
      m.combined = E.encode (n ++ c) := by
  exact ⟨EncryptedMessage._from_parts (E.encode n) (E.encode c)
    (E.encode (n ++ c)),
    Box.encrypt_eq_of_afternm box C p n c E hn hc, rfl, rfl, rfl⟩

/-- C5 witness: the projections at a concrete plaintext, nonce, shared
key and the toy primitives, under the raw encoder. -/
theorem box_encrypt_projections_witness :
    ∃ m : EncryptedMessage,
      Box.encrypt ⟨some [1]⟩ toyPrimitives [5] (List.replicate 24 0)
        RawEncoder = .ok m ∧
      m.nonce = RawEncoder.encode (List.replicate 24 0) ∧
      m.ciphertext = RawEncoder.encode [5, 4] ∧
      m.combined = RawEncoder.encode (List.replicate 24 0 ++ [5, 4]) :=
  box_encrypt_projections toyPrimitives ⟨some [1]⟩ [5]
    (List.replicate 24 0) [5, 4] RawEncoder (by decide) rfl

/-- C6: for every valid 32-byte private key material, construction
derives the public key at construction time as the base-point scalar
multiplication of the external curve primitive applied to the decoded
key, wraps it as a `PublicKey`, and the derivation is deterministic:
repeated constructions yield equal public keys. -/
theorem private_key_public_derivation (C : CryptoPrimitives)
    (hC : C.Sound) (E : Encoder) (b : Bytes)
    (h : (E.decode b).length = PrivateKey.SIZE) :
    PrivateKey.init C b E =
      .ok ⟨E.decode b, ⟨C.crypto_scalarmult_base (E.decode b)⟩⟩ ∧
    (∀ k1 k2 : PrivateKey, PrivateKey.init C b E = .ok k1 →
      PrivateKey.init C b E = .ok k2 → k1.public_key = k2.public_key) := by
  have hpk := PublicKey.init_ok (C.crypto_scalarmult_base (E.decode b))
    (hC.scalarmult_base_len (E.decode b))
  constructor
  · simp [PrivateKey.init, h, hpk]
  · intro k1 k2 h1 h2
    rw [h1] at h2
    cases h2
    rfl

/-- C6 witness: the derivation at concrete 32-byte key material under
the toy primitives and the raw encoder. -/
theorem private_key_public_derivation_witness :
    PrivateKey.init toyPrimitives (List.replicate 32 4) RawEncoder =
      .ok ⟨RawEncoder.decode (List.replicate 32 4),
        ⟨toyPrimitives.crypto_scalarmult_base
          (RawEncoder.decode (List.replicate 32 4))⟩⟩ ∧
    (∀ k1 k2 : PrivateKey,
      PrivateKey.init toyPrimitives (List.replicate 32 4) RawEncoder =
        .ok k1 →
      PrivateKey.init toyPrimitives (List.replicate 32 4) RawEncoder =
        .ok k2 → k1.public_key = k2.public_key) :=
  private_key_public_derivation toyPrimitives toyPrimitives_sound
    RawEncoder (List.replicate 32 4) (by decide)

/-- C7: a box built from a present private and public key has its shared
key computed at construction as `crypto_box_beforenm` of the raw-encoded
public and private keys, and `encrypt`/`decrypt` depend only on the
symmetric primitives: their results are unchanged under any modification
of the key-agreement primitives, so key agreement is never invoked again;
the box record itself is immutable, its only field being the shared key
fixed at construction. -/
theorem box_shared_key_frame (C C' : CryptoPrimitives) (sk : PrivateKey)
    (pk : PublicKey)
    (hafter : C.crypto_box_afternm = C'.crypto_box_afternm)
    (hopen : C.crypto_box_open_afternm = C'.crypto_box_open_afternm) :
    (Box.init C (some sk) (some pk))._shared_key =
      some (C.crypto_box_beforenm (pk.encode RawEncoder)
        (sk.encode RawEncoder)) ∧
    (∀ (box : Box) (p n : Bytes) (E : Encoder),
      box.encrypt C p n E = box.encrypt C' p n E) ∧
    (∀ (box : Box) (ct : Bytes) (nonce : Option Bytes) (E : Encoder),
      box.decrypt C ct nonce E = box.decrypt C' ct nonce E) := by
  refine ⟨rfl, ?_, ?_⟩
  · intro box p n E
    unfold Box.encrypt
    rw [hafter]
  · intro box ct nonce E
    unfold Box.decrypt
    rw [hopen]

/-- C7 witness: concrete boxes and messages, with a primitive record
whose key-agreement functions were replaced, leaving encrypt and decrypt
results unchanged. -/
theorem box_shared_key_frame_witness :
    (Box.init toyPrimitives
      (some ⟨List.replicate 32 3, ⟨List.replicate 32 5⟩⟩)
      (some ⟨List.replicate 32 5⟩))._shared_key =
      some (toyPrimitives.crypto_box_beforenm
        (PublicKey.encode ⟨List.replicate 32 5⟩ RawEncoder)
        (PrivateKey.encode ⟨List.replicate 32 3, ⟨List.replicate 32 5⟩⟩
          RawEncoder)) ∧
    Box.encrypt ⟨some [1]⟩ toyPrimitives [2] (List.replicate 24 0)
      RawEncoder =
      Box.encrypt ⟨some [1]⟩
        { toyPrimitives with crypto_box_beforenm := fun a _ => a } [2]
        (List.replicate 24 0) RawEncoder ∧
    Box.decrypt ⟨some [1]⟩ toyPrimitives [3] none RawEncoder =
      Box.decrypt ⟨some [1]⟩
        { toyPrimitives with crypto_box_beforenm := fun a _ => a } [3]
        none RawEncoder := by
  have h := box_shared_key_frame toyPrimitives
    { toyPrimitives with crypto_box_beforenm := fun a _ => a }
    ⟨List.replicate 32 3, ⟨List.replicate 32 5⟩⟩ ⟨List.replicate 32 5⟩
    rfl rfl
  exact ⟨h.1, h.2.1 ⟨some [1]⟩ [2] (List.replicate 24 0) RawEncoder,
    h.2.2 ⟨some [1]⟩ [3] none RawEncoder⟩

/-- C8: whenever the authenticated-decrypt primitive reports that the
tag does not verify (tampering, wrong key, corruption), `decrypt` fails
with `AuthenticationFailure` and returns no plaintext at all — no `.ok`
result of any kind. -/
theorem box_decrypt_auth_failure (C : CryptoPrimitives) (box : Box)
    (ct n : Bytes) (E : Encoder) (hn : n.length = Box.NONCE_SIZE)
    (hfail : C.crypto_box_open_afternm (E.decode ct) n box._shared_key =
      .error .AuthenticationFailure) :
    box.decrypt C ct (some n) E = .error .AuthenticationFailure ∧
    ∀ q : Bytes, box.decrypt C ct (some n) E ≠ .ok q := by
  rw [Box.decrypt_some_eq box C ct n E hn]
  exact ⟨hfail, fun q h => by rw [hfail] at h; cases h⟩

/-- C8 witness: the toy encryption of `[5]` under key `[1]` and a zero
nonce is `[5, 4]`; flipping the low bit of its last byte gives `[5, 5]`,
whose tag no longer verifies, and decrypt fails with
`AuthenticationFailure` and never returns a plaintext. -/
theorem box_decrypt_auth_failure_witness :
    Box.decrypt ⟨some [1]⟩ toyPrimitives [5, 5] (some (List.replicate 24 0))
      RawEncoder = .error .AuthenticationFailure ∧
    ∀ q : Bytes, Box.decrypt ⟨some [1]⟩ toyPrimitives [5, 5]
      (some (List.replicate 24 0)) RawEncoder ≠ .ok q :=
  box_decrypt_auth_failure toyPrimitives ⟨some [1]⟩ [5, 5]
    (List.replicate 24 0) RawEncoder (by decide) rfl

/-- C9: for every encoded input and encoder, the raw-secret construction
path `Box.decode` succeeds (it is total, as in the source) and produces a
box whose shared secret is exactly the decoded bytes, with no validation
of their length or provenance. -/
theorem box_decode_trusts_input (encoded : Bytes) (E : Encoder) :
    (Box.decode encoded E)._shared_key = some (E.decode encoded) := rfl

/-- C10: the `Box` constructor does not require both keys: with `None`
for the private key, the public key, or both, construction succeeds (it
is total) and yields a box whose shared secret is unset, so the
uninitialized box state is reachable through the ordinary constructor. -/
theorem box_init_unset_shared_key (C : CryptoPrimitives)
    (sk : PrivateKey) (pk : PublicKey) :
    (Box.init C none (some pk))._shared_key = none ∧
    (Box.init C (some sk) none)._shared_key = none ∧
    (Box.init C none none)._shared_key = none := ⟨rfl, rfl, rfl⟩
